import Mathlib

set_option autoImplicit false

/-!
Verification development for the kokorox streaming text-to-speech pipeline.

Rust strings are modelled as `List Char` (a Rust `String` is a sequence of
Unicode scalar values); byte positions are recovered through the UTF-8 size
of each character.  External collaborators (the espeak phonemizer, the
token-vocabulary map, the whatlang classifier, the ONNX inference engine)
are opaque fallible functions in the source and are passed as parameters
here.  `f32` style weights and audio samples are modelled as exact
rationals: every fact proved or refuted below is about a factor-of-ten or
structural discrepancy that is independent of floating-point rounding.
Panics (`unwrap`, out-of-bounds indexing, non-boundary byte slicing) are
modelled as `Option.none`.
-/

namespace Kokorox

/-- UTF-8 encoded byte length of a character (Rust `char::len_utf8`). -/
def utf8CharSize (c : Char) : Nat :=
  if c.toNat < 0x80 then 1
  else if c.toNat < 0x800 then 2
  else if c.toNat < 0x10000 then 3
  else 4

/-- Byte length of a string (Rust `str::len`). -/
def byteLen (s : List Char) : Nat := (s.map utf8CharSize).sum

/-- Rust `str::trim`: drop leading and trailing whitespace. -/
def trimChars (s : List Char) : List Char :=
  ((s.dropWhile Char.isWhitespace).reverse.dropWhile Char.isWhitespace).reverse

/-! ## Durable sink: `kokorox/src/utils/wav.rs` -/

/-- Little-endian bytes of a `u16` value (`u16::to_le_bytes`). -/
def u16le (n : Nat) : List Nat := [n % 256, n / 256 % 256]

/-- Little-endian bytes of a `u32` value (`u32::to_le_bytes`). -/
def u32le (n : Nat) : List Nat :=
  [n % 256, n / 256 % 256, n / 256 ^ 2 % 256, n / 256 ^ 3 % 256]

/-- Byte string of an ASCII literal such as `b"RIFF"`. -/
def asciiBytes (s : String) : List Nat := s.toList.map Char.toNat

/-- The `WavHeader` struct of `kokorox/src/utils/wav.rs` (fields are `u16`,
`u32`, `u16` in the source; the `Nat` model relies on the range side
conditions stated with the theorems). -/
structure WavHeader where
  channels : Nat
  sampleRate : Nat
  bitsPerSample : Nat

/-- One `writer.write_all(bytes)` call: the writer state is the list of bytes
emitted so far. -/
def writeAll (st : List Nat) (bytes : List Nat) : List Nat := st ++ bytes

/-- `WavHeader::write_header`, translated call by call.  `chunk_size`,
`byte_rate` and `block_align` are computed in `u32`/`u16` arithmetic, hence
the explicit wrap-arounds. -/
def writeHeader (h : WavHeader) (dataSize : Nat) : List Nat :=
  let chunkSize := (4 + 8 + 16 + 8 + dataSize) % 2 ^ 32
  let byteRate := h.sampleRate * h.channels % 2 ^ 32 * h.bitsPerSample % 2 ^ 32 / 8
  let blockAlign := h.channels * h.bitsPerSample % 2 ^ 16 / 8
  let st := writeAll [] (asciiBytes "RIFF")
  let st := writeAll st (u32le chunkSize)
  let st := writeAll st (asciiBytes "WAVE")
  let st := writeAll st (asciiBytes "fmt ")
  let st := writeAll st (u32le 16)
  let st := writeAll st (u16le 3)
  let st := writeAll st (u16le h.channels)
  let st := writeAll st (u32le h.sampleRate)
  let st := writeAll st (u32le byteRate)
  let st := writeAll st (u16le blockAlign)
  let st := writeAll st (u16le h.bitsPerSample)
  let st := writeAll st (asciiBytes "data")
  writeAll st (u32le dataSize)

/-- `write_audio_chunk`: append every sample's little-endian bytes in order.
The 4-byte IEEE-754 encoding of an `f32` is the opaque parameter `enc`. -/
def writeAudioChunk {α : Type} (enc : α → List Nat) (st : List Nat)
    (samples : List α) : List Nat :=
  samples.foldl (fun acc s => writeAll acc (enc s)) st

/-! ## Token-budget chunker: `TTSKoko::split_text_into_chunks`
(kokorox/src/tts/koko.rs lines 473-557; the kokoros copy is identical).

The token-counting collaborator `tc` stands for the source expression
`tokenize(&text_to_phonemes(s, &lang, None, true, false).unwrap_or_default().join("")).len()`
with the language fixed once per call; phonemizer and tokenizer are the
external collaborators the chunker consults. -/

/-- The sentence-ending characters `['.', '?', '!', ';']` used by
`split_text_into_chunks`. -/
def isSentenceSep (c : Char) : Bool := c = '.' || c = '?' || c = '!' || c = ';'

/-- Rust `str::split` on a character predicate: the pieces between
separator occurrences, empty pieces included (the result is never the
empty list, so the `headD []` below is never the default). -/
def splitOnPred (p : Char → Bool) : List Char → List (List Char)
  | [] => [[]]
  | c :: cs =>
    if p c then [] :: splitOnPred p cs
    else (c :: (splitOnPred p cs).headD []) :: (splitOnPred p cs).tail

/-- Rust `str::split_whitespace`: whitespace-separated words, no empties. -/
def splitWhitespaceChars (s : List Char) : List (List Char) :=
  (splitOnPred Char.isWhitespace s).filter (fun w => !w.isEmpty)

/-- The word-level fallback loop of `split_text_into_chunks`, entered when a
single sentence exceeds the budget.  State: chunks pushed so far and the
running `word_chunk`. -/
def chunkWords (tc : List Char → Nat) (maxTokens : Nat) :
    List (List Char) → List (List Char) → List Char → List (List Char) × List Char
  | [], chunks, wordChunk => (chunks, wordChunk)
  | w :: ws, chunks, wordChunk =>
    let testChunk := if wordChunk = [] then w else wordChunk ++ ' ' :: w
    if tc testChunk > maxTokens then
      chunkWords tc maxTokens ws
        (if wordChunk = [] then chunks else chunks ++ [wordChunk]) w
    else
      chunkWords tc maxTokens ws chunks testChunk

/-- The sentence loop of `split_text_into_chunks`.  State: chunks pushed so
far and the running `current_chunk`; after the loop a non-empty
`current_chunk` is pushed. -/
def chunkSentences (tc : List Char → Nat) (maxTokens : Nat) :
    List (List Char) → List (List Char) → List Char → List (List Char)
  | [], chunks, currentChunk =>
    if currentChunk = [] then chunks else chunks ++ [currentChunk]
  | s :: ss, chunks, currentChunk =>
    let sentence := trimChars s ++ ['.']
    if tc sentence > maxTokens then
      let res := chunkWords tc maxTokens (splitWhitespaceChars sentence) chunks []
      let chunks1 := if res.2 = [] then res.1 else res.1 ++ [res.2]
      chunkSentences tc maxTokens ss chunks1 currentChunk
    else if currentChunk ≠ [] then
      let testText := currentChunk ++ ' ' :: sentence
      if tc testText > maxTokens then
        chunkSentences tc maxTokens ss (chunks ++ [currentChunk]) sentence
      else
        chunkSentences tc maxTokens ss chunks testText
    else
      chunkSentences tc maxTokens ss chunks sentence

/-- `TTSKoko::split_text_into_chunks`: split into sentences, drop blank
pieces, then run the sentence loop. -/
def splitTextIntoChunks (tc : List Char → Nat) (text : List Char)
    (maxTokens : Nat) : List (List Char) :=
  let sentences :=
    (splitOnPred isSentenceSep text).filter (fun s => !(trimChars s).isEmpty)
  chunkSentences tc maxTokens sentences [] []

/-- A chunk respects the token budget, or is a single irreducible word:
it contains no whitespace, so the word-level fallback had no split point
inside it. -/
abbrev BudgetOk (tc : List Char → Nat) (maxTokens : Nat) (c : List Char) : Prop :=
  tc c ≤ maxTokens ∨ ∀ ch ∈ c, ch.isWhitespace = false

/-! ## Voice bank and style blending: `TTSKoko::mix_styles`
(kokorox/src/tts/koko.rs lines 882-924; the kokoros copy is identical). -/

/-- One speaker-embedding row: the inner `[f32; 256]` array of a voice
entry `[[f32; 256]; 1]` (the singleton outer dimension is elided), `f32`
modelled as `ℚ`. -/
abbrev StyleRow : Type := Fin 256 → ℚ

/-- A voice's sequence-length-indexed table `Vec<[[f32; 256]; 1]>`
(`load_voices` always builds tables of length 511). -/
abbrev StyleTable : Type := List StyleRow

/-- The Voice Bank `HashMap<String, Vec<[[f32; 256]; 1]>>`, modelled as an
association list with unique keys; iteration order of the `HashMap` is
unspecified in Rust, here it is the list order. -/
abbrev VoiceBank : Type := List (List Char × StyleTable)

/-- `HashMap::get`. -/
def bankLookup (bank : VoiceBank) (name : List Char) : Option StyleTable :=
  match bank with
  | [] => none
  | kv :: rest => if kv.1 = name then some kv.2 else bankLookup rest name

/-- `HashMap::contains_key`. -/
def bankContains (bank : VoiceBank) (name : List Char) : Bool :=
  (bankLookup bank name).isSome

/-- `self.styles.keys().next()`: the first key in iteration order, if any. -/
def bankFirstKey (bank : VoiceBank) : Option (List Char) :=
  (bank.map Prod.fst).head?

/-- Rust `str::split_once(c)`: the pieces before and after the first
occurrence of `c`, or `None` when `c` does not occur. -/
def splitOnce (c : Char) : List Char → Option (List Char × List Char)
  | [] => none
  | d :: ds =>
    if d = c then some ([], ds)
    else (splitOnce c ds).map (fun p => (d :: p.1, p.2))

/-- Value of a digit string. -/
def digitsToNat (ds : List Char) : Nat :=
  ds.foldl (fun n d => n * 10 + (d.toNat - '0'.toNat)) 0

/-- The decimal-literal fragment of Rust `str::parse::<f32>` (digits, an
optional dot, digits), which covers every weight string a composite style
spec produces; other `f32` syntaxes (signs, exponents, `inf`, `nan`) are
outside the modelled fragment and are treated as parse failures.  The
result is the exact rational value of the literal. -/
def parseDecimal (s : List Char) : Option ℚ :=
  match splitOnce '.' s with
  | none =>
    if !s.isEmpty && s.all Char.isDigit then some (digitsToNat s) else none
  | some (intPart, fracPart) =>
    if (!intPart.isEmpty || !fracPart.isEmpty) &&
        intPart.all Char.isDigit && fracPart.all Char.isDigit then
      some ((digitsToNat intPart : ℚ) +
        (digitsToNat fracPart : ℚ) / (10 : ℚ) ^ fracPart.length)
    else none

/-- The component-collection loop of `mix_styles` for a composite spec:
`split('+')`, then `split_once('.')`, then `parse::<f32>`, then the fixed
`* 0.1` tenths scaling; components that fail to split or parse are
dropped. -/
def parseComponents (spec : List Char) : List (List Char × ℚ) :=
  (splitOnPred (fun c => c = '+') spec).filterMap (fun comp =>
    (splitOnce '.' comp).bind (fun p =>
      (parseDecimal p.2).map (fun q => (p.1, q * (1 / 10)))))

/-- The zero-initialised blend accumulator `vec![vec![0.0; 256]; 1]`. -/
def zeroRow : StyleRow := fun _ => 0

/-- One iteration of the blend loop of `mix_styles`: a component whose name
is absent from the bank is skipped; a present component contributes
`style_slice[j] * portion` element-wise; the table index panics
(modelled `none`) when `tokens_len` is out of range. -/
def blendStep (bank : VoiceBank) (tokensLen : Nat) (acc : Option StyleRow)
    (p : List Char × ℚ) : Option StyleRow :=
  acc.bind (fun row =>
    match bankLookup bank p.1 with
    | some table =>
      match table.get? tokensLen with
      | some srow => some (fun j => row j + srow j * p.2)
      | none => none
    | none => some row)

/-- `TTSKoko::mix_styles`.  `none` models the panic of the out-of-range
index `style[tokens_len]`; `some (Except.error e)` models `Err(e)`. -/
def mixStyles (bank : VoiceBank) (styleName : List Char) (tokensLen : Nat) :
    Option (Except String (List StyleRow)) :=
  if !styleName.contains '+' then
    match bankLookup bank styleName with
    | some table =>
      match table.get? tokensLen with
      | some row => some (Except.ok [row])
      | none => none
    | none =>
      some (Except.error ("can not found from styles_map: " ++ String.mk styleName))
  else
    let comps := parseComponents styleName
    let blended := comps.foldl (blendStep bank tokensLen) (some zeroRow)
    blended.map (fun row => Except.ok [row])

/-- A sequence length is in range for every table of the bank
(`load_voices` builds tables of length 511, so any `L < 511` is in range
for a loaded bank). -/
abbrev bankWF (bank : VoiceBank) (L : Nat) : Prop :=
  ∀ nm t, (nm, t) ∈ bank → L < t.length

/-- A two-voice bank for concrete evaluation: `voice_a` maps to the
all-ones row and `voice_b` to the all-zeros row, each with a single
sequence-length entry. -/
def cexBankAB : VoiceBank :=
  [("voice_a".toList, [fun _ => 1]), ("voice_b".toList, [fun _ => 0])]

/-- A phonemizer collaborator that fails on the chunk `"bad."` and echoes
every other chunk. -/
def cexPhonemize (s : List Char) : Except String (List (List Char)) :=
  if s = "bad.".toList then Except.error "phonemize failed" else Except.ok [s]

/-! ## Style resolution: the `effective_style` computation in
`TTSKoko::tts_raw_audio` (kokorox/src/tts/koko.rs lines 594-646). -/

/-- The `effective_style` computation.  `getDefault` is
`get_default_voice_for_language` (a static language-to-style table, opaque
here); `none` models the `unwrap()` panic on `styles.keys().next()` when
the bank is empty.  The `auto_detect_language` flag only selects log
messages in this block and is omitted. -/
def effectiveStyle (bank : VoiceBank) (getDefault : List Char → Bool → List Char)
    (isCustom : Bool) (language styleName : List Char) (forceStyle : Bool) :
    Option (List Char) :=
  if !forceStyle then
    let defaultStyle := getDefault language isCustom
    if bankContains bank defaultStyle then some defaultStyle
    else if !bankContains bank styleName then bankFirstKey bank
    else some styleName
  else
    if !bankContains bank styleName then bankFirstKey bank
    else some styleName

/-! ## Per-chunk synthesis loop of `TTSKoko::tts_raw_audio`
(kokoros/src/tts/koko.rs lines 340-398; the kokorox copy, lines 648-828,
adds number/accent normalisation before phonemization but has the identical
error structure). -/

/-- The chunk loop.  `phonemize` is `text_to_phonemes` at the session
language, `post` the phoneme post-processing (`fix_spanish_phonemes` for
Spanish, identity otherwise), `tokenize` the vocabulary map and `infer` the
ONNX engine — all external collaborators.  A phonemize `Err` is propagated
by `?`; an infer `Err` is wrapped and returned; `none` models a panic
inside `mix_styles`. -/
def ttsChunkLoop (phonemize : List Char → Except String (List (List Char)))
    (post : List Char → List Char) (tokenize : List Char → List Nat)
    (infer : List (List Nat) → List StyleRow → Except String (List ℚ))
    (bank : VoiceBank) (effStyle : List Char) (initialSilence : Nat) :
    List (List Char) → List ℚ → Option (Except String (List ℚ))
  | [], finalAudio => some (Except.ok finalAudio)
  | chunk :: rest, finalAudio =>
    match phonemize chunk with
    | Except.error e => some (Except.error e)
    | Except.ok ps =>
      let phonemes := post ps.flatten
      let tokens := List.replicate initialSilence 30 ++ tokenize phonemes
      match mixStyles bank effStyle tokens.length with
      | none => none
      | some (Except.error e) => some (Except.error e)
      | some (Except.ok styles) =>
        let paddedTokens := 0 :: (tokens ++ [0])
        match infer [paddedTokens] styles with
        | Except.ok chunkAudio =>
          ttsChunkLoop phonemize post tokenize infer bank effStyle
            initialSilence rest (finalAudio ++ chunkAudio)
        | Except.error e =>
          some (Except.error ("Chunk processing failed: " ++ e))

/-! ## Streaming segmentation buffer, `Mode::Pipe` of koko/src/main.rs. -/

/-- The boundary set of the CJK extraction branch (line 948). -/
def isCjkBoundary (c : Char) : Bool :=
  c = '。' || c = '！' || c = '？' || c = '.' || c = '!' || c = '?'

/-- The CJK character scan (lines 946-952): accumulate characters, close a
unit at each boundary character whose accumulated run is not blank. -/
def cjkScan : List Char → List (List Char) → List Char → List (List Char) × List Char
  | [], acc, cur => (acc, cur)
  | c :: rest, acc, cur =>
    let cur1 := cur ++ [c]
    if isCjkBoundary c && !(trimChars cur1).isEmpty then
      cjkScan rest (acc ++ [cur1]) []
    else
      cjkScan rest acc cur1

/-- The CJK branch of the per-increment buffer update (lines 938-962):
extract complete units, keep an incomplete remainder as the new buffer and
clear a blank remainder. -/
def cjkStep (buffer : List Char) : List (List Char) × List Char :=
  let p := cjkScan buffer [] []
  (p.1, if !(trimChars p.2).isEmpty then p.2 else [])

/-- Rust byte slicing `&s[..n]` split into prefix and remainder: `none`
when `n` is not a character boundary or exceeds the byte length, both of
which panic in Rust. -/
def takeBytes : Nat → List Char → Option (List Char × List Char)
  | 0, s => some ([], s)
  | _ + 1, [] => none
  | n + 1, c :: cs =>
    if utf8CharSize c ≤ n + 1 then
      (takeBytes (n + 1 - utf8CharSize c) cs).map (fun p => (c :: p.1, p.2))
    else none

/-- The starvation guard (lines 1073-1082): when no complete sentence was
extracted and the buffer exceeds 200 bytes, forcibly emit the first 200
bytes as a synthetic unit and keep the rest. -/
def starvationGuard (completeSentences : List (List Char)) (buffer : List Char) :
    Option (List (List Char) × List Char) :=
  if completeSentences.isEmpty = true ∧ 200 < byteLen buffer then
    let endIndex := if 200 < byteLen buffer then 200 else byteLen buffer
    match takeBytes endIndex buffer with
    | some p => some (completeSentences ++ [p.1], p.2)
    | none => none
  else some (completeSentences, buffer)

/-- Pipe-mode session state (lines 741-769). -/
structure PipeState where
  buffer : List Char
  languageDetected : Bool
  sessionLanguage : List Char
  sessionStyle : List Char
deriving DecidableEq

/-- Initial Pipe-mode state: with auto-detect disabled the language counts
as already detected (line 747). -/
def pipeInit (lan style : List Char) (autoDetect : Bool) : PipeState :=
  { buffer := [], languageDetected := !autoDetect,
    sessionLanguage := lan, sessionStyle := style }

/-- One Pipe read-loop iteration up to the language-lock block (lines
893-932): append the line to the buffer; if the language is not yet
locked, run detection when auto-detect is on and the buffer exceeds 60
bytes (keeping the current language if detection fails), pick the session
style (`style` when forced, else `get_default_voice_for_language`) and set
`language_detected`. -/
def pipeLangLockStep (detect : List Char → Option (List Char))
    (getDefault : List Char → Bool → List Char) (isCustom : Bool)
    (autoDetect forceStyle : Bool) (style : List Char)
    (st : PipeState) (line : List Char) : PipeState :=
  let buffer := st.buffer ++ line
  if !st.languageDetected then
    let sessionLanguage :=
      if autoDetect = true ∧ 60 < byteLen buffer then
        match detect buffer with
        | some detected => detected
        | none => st.sessionLanguage
      else st.sessionLanguage
    let sessionStyle :=
      if forceStyle then style else getDefault sessionLanguage isCustom
    { buffer := buffer, languageDetected := true,
      sessionLanguage := sessionLanguage, sessionStyle := sessionStyle }
  else
    { st with buffer := buffer }

/-! ## Language detection: `detect_language`
(kokoros/src/tts/phonemizer.rs lines 299-359). -/

/-- `LANGUAGE_MAP` (kokoros/src/tts/phonemizer.rs lines 16-147): language
code to espeak-ng code. -/
def languageMap : List (String × String) :=
  [("en", "en-us"), ("eng", "en-us"), ("en-us", "en-us"), ("en-gb", "en-gb"),
   ("en-uk", "en-gb"), ("en-au", "en-gb"), ("en-ca", "en-us"), ("en-ie", "en-gb"),
   ("en-in", "en-gb"), ("en-nz", "en-gb"), ("en-za", "en-gb"),
   ("zh", "zh"), ("zho", "zh"), ("chi", "zh"), ("zh-cn", "zh"), ("zh-tw", "zh-tw"),
   ("zh-hk", "zh-yue"), ("yue", "zh-yue"), ("wuu", "zh"), ("cmn", "zh"),
   ("ja", "ja"), ("jpn", "ja"), ("ko", "ko"), ("kor", "ko"),
   ("de", "de"), ("deu", "de"), ("ger", "de"), ("de-at", "de"), ("de-ch", "de"),
   ("fr", "fr-fr"), ("fra", "fr-fr"), ("fre", "fr-fr"), ("fr-fr", "fr-fr"),
   ("fr-ca", "fr-ca"), ("fr-be", "fr-fr"), ("fr-ch", "fr-fr"),
   ("it", "it"), ("ita", "it"),
   ("es", "es"), ("spa", "es"), ("es-es", "es"), ("es-mx", "es-la"),
   ("es-ar", "es-la"), ("es-co", "es-la"), ("es-cl", "es-la"), ("es-la", "es-la"),
   ("pt", "pt-pt"), ("por", "pt-pt"), ("pt-pt", "pt-pt"), ("pt-br", "pt-br"),
   ("ru", "ru"), ("rus", "ru"), ("pl", "pl"), ("pol", "pl"),
   ("nl", "nl"), ("nld", "nl"), ("dut", "nl"), ("sv", "sv"), ("swe", "sv"),
   ("tr", "tr"), ("tur", "tr"), ("el", "el"), ("ell", "el"), ("gre", "el"),
   ("cs", "cs"), ("ces", "cs"), ("cze", "cs"), ("hu", "hu"), ("hun", "hu"),
   ("fi", "fi"), ("fin", "fi"), ("ro", "ro"), ("ron", "ro"), ("rum", "ro"),
   ("da", "da"), ("dan", "da"),
   ("hi", "hi"), ("hin", "hi"), ("bn", "bn"), ("ben", "bn"),
   ("vi", "vi"), ("vie", "vi"), ("th", "th"), ("tha", "th"),
   ("ar", "ar"), ("ara", "ar"), ("fa", "fa"), ("fas", "fa"), ("per", "fa"),
   ("he", "he"), ("heb", "he")]

/-- The per-language confidence threshold (lines 331-340). -/
def minConfidence (code : String) : ℚ :=
  if code = "zh" ∨ code = "ja" ∨ code = "ko" then 3 / 10
  else if code = "en" ∨ code = "de" ∨ code = "fr" ∨ code = "es" ∨ code = "it" ∨
      code = "pt" ∨ code = "nl" then 1 / 2
  else if code = "ru" ∨ code = "ar" ∨ code = "he" ∨ code = "hi" ∨ code = "bn" ∨
      code = "th" then 2 / 5
  else 1 / 2

/-- `detect_language`.  The whatlang classifier is the opaque `oracle`,
returning a language code and an `f64` confidence (modelled as `ℚ`); Rust
`char::is_alphabetic` is modelled by `Char.isAlpha`. -/
def detectLanguage (oracle : List Char → Option (String × ℚ))
    (text : List Char) : Option String :=
  let trimmed := trimChars text
  if byteLen trimmed < 10 then some "en-us"
  else
    let alphas := (trimmed.filter Char.isAlpha).length
    if alphas < byteLen trimmed / 3 then some "en-us"
    else
      match oracle trimmed with
      | none => some "en-us"
      | some (code, confidence) =>
        if confidence < minConfidence code then some "en-us"
        else
          match languageMap.lookup code with
          | some espeakCode => some espeakCode
          | none => some "en-us"

/-- The language-selection step at the top of `TTSKoko::tts_raw_audio`
(kokorox/src/tts/koko.rs lines 574-589): with auto-detect on, use the
detected language and fall back to `lan` only if detection returns `None`;
with auto-detect off, use `lan`. -/
def selectLanguage (oracle : List Char → Option (String × ℚ))
    (autoDetect : Bool) (txt : List Char) (lan : String) : String :=
  if autoDetect then
    match detectLanguage oracle txt with
    | some detected => detected
    | none => lan
  else lan

/-! ## Helper lemmas -/

theorem u32le_mod (n : Nat) : u32le (n % 2 ^ 32) = u32le n := by
  have h1 : (2 : Nat) ^ 32 = 256 * 2 ^ 24 := by norm_num
  have h2 : (2 : Nat) ^ 32 = 256 ^ 2 * 2 ^ 16 := by norm_num
  have h3 : (2 : Nat) ^ 32 = 256 ^ 3 * 256 := by norm_num
  simp only [u32le, List.cons.injEq, and_true]
  refine ⟨?_, ?_, ?_, ?_⟩
  · exact Nat.mod_mod_of_dvd n (by norm_num)
  · rw [h1, Nat.mod_mul_right_div_self,
      Nat.mod_mod_of_dvd _ (by norm_num : (256 : Nat) ∣ 2 ^ 24)]
  · rw [h2, Nat.mod_mul_right_div_self,
      Nat.mod_mod_of_dvd _ (by norm_num : (256 : Nat) ∣ 2 ^ 16)]
  · rw [h3, Nat.mod_mul_right_div_self, Nat.mod_mod_of_dvd _ (dvd_refl 256)]

theorem writeAudioChunk_eq {α : Type} (enc : α → List Nat) (st : List Nat)
    (samples : List α) :
    writeAudioChunk enc st samples = st ++ (samples.map enc).flatten := by
  induction samples generalizing st with
  | nil => simp [writeAudioChunk]
  | cons s rest ih =>
      simp only [writeAudioChunk, List.foldl_cons] at ih ⊢
      rw [ih (writeAll st (enc s))]
      simp [writeAll]

theorem splitOnPred_ne_nil (p : Char → Bool) (s : List Char) :
    splitOnPred p s ≠ [] := by
  cases s with
  | nil => simp [splitOnPred]
  | cons c cs => by_cases hpc : p c <;> simp [splitOnPred, hpc]

theorem splitOnPred_pieces (p : Char → Bool) (s : List Char) :
    ∀ piece ∈ splitOnPred p s, ∀ ch ∈ piece, p ch = false := by
  induction s with
  | nil =>
    intro piece hp ch hch
    simp only [splitOnPred, List.mem_singleton] at hp
    subst hp
    cases hch
  | cons c cs ih =>
    intro piece hp ch hch
    obtain ⟨hd, tl, h⟩ : ∃ hd tl, splitOnPred p cs = hd :: tl := by
      cases hsp : splitOnPred p cs with
      | nil => exact absurd hsp (splitOnPred_ne_nil p cs)
      | cons a b => exact ⟨a, b, rfl⟩
    simp only [splitOnPred, h, List.headD_cons, List.tail_cons] at hp
    by_cases hpc : p c
    · rw [if_pos hpc] at hp
      rcases List.mem_cons.mp hp with hp1 | hp1
      · subst hp1; cases hch
      · exact ih piece (by rw [h]; exact hp1) ch hch
    · rw [if_neg hpc] at hp
      rcases List.mem_cons.mp hp with hp1 | hp1
      · subst hp1
        rcases List.mem_cons.mp hch with hch1 | hch1
        · subst hch1; exact Bool.eq_false_iff.mpr hpc
        · exact ih hd (by rw [h]; exact List.mem_cons_self hd tl) ch hch1
      · exact ih piece (by rw [h]; exact List.mem_cons_of_mem hd hp1) ch hch

theorem splitWhitespaceChars_noWs (s : List Char) :
    ∀ w ∈ splitWhitespaceChars s, ∀ ch ∈ w, ch.isWhitespace = false := by
  intro w hw ch hch
  have hw1 : w ∈ splitOnPred Char.isWhitespace s :=
    List.mem_of_mem_filter hw
  exact splitOnPred_pieces Char.isWhitespace s w hw1 ch hch

theorem chunkWords_cons_over (tc : List Char → Nat) (maxTokens : Nat)
    (w : List Char) (ws chunks : List (List Char)) (wordChunk : List Char)
    (hbig : tc (if wordChunk = [] then w else wordChunk ++ ' ' :: w) > maxTokens) :
    chunkWords tc maxTokens (w :: ws) chunks wordChunk =
      chunkWords tc maxTokens ws
        (if wordChunk = [] then chunks else chunks ++ [wordChunk]) w := by
  simp only [chunkWords]
  rw [if_pos hbig]

theorem chunkWords_cons_fit (tc : List Char → Nat) (maxTokens : Nat)
    (w : List Char) (ws chunks : List (List Char)) (wordChunk : List Char)
    (hfit : ¬ tc (if wordChunk = [] then w else wordChunk ++ ' ' :: w) > maxTokens) :
    chunkWords tc maxTokens (w :: ws) chunks wordChunk =
      chunkWords tc maxTokens ws chunks
        (if wordChunk = [] then w else wordChunk ++ ' ' :: w) := by
  simp only [chunkWords]
  rw [if_neg hfit]

theorem chunkWords_inv (tc : List Char → Nat) (maxTokens : Nat)
    (ws : List (List Char)) :
    ∀ (chunks : List (List Char)) (wc : List Char),
    (∀ w ∈ ws, ∀ ch ∈ w, ch.isWhitespace = false) →
    (∀ c ∈ chunks, BudgetOk tc maxTokens c) →
    (wc = [] ∨ BudgetOk tc maxTokens wc) →
    (∀ c ∈ (chunkWords tc maxTokens ws chunks wc).1, BudgetOk tc maxTokens c) ∧
      ((chunkWords tc maxTokens ws chunks wc).2 = [] ∨
        BudgetOk tc maxTokens (chunkWords tc maxTokens ws chunks wc).2) := by
  induction ws with
  | nil => exact fun chunks wc _ hchunks hwc => ⟨hchunks, hwc⟩
  | cons w ws ih =>
    intro chunks wc hws hchunks hwc
    have hwword : ∀ ch ∈ w, ch.isWhitespace = false :=
      hws w (List.mem_cons_self w ws)
    have hwsrest : ∀ v ∈ ws, ∀ ch ∈ v, ch.isWhitespace = false :=
      fun v hv => hws v (List.mem_cons_of_mem w hv)
    by_cases hbig : tc (if wc = [] then w else wc ++ ' ' :: w) > maxTokens
    · rw [chunkWords_cons_over tc maxTokens w ws chunks wc hbig]
      apply ih _ _ hwsrest
      · intro c hc
        by_cases hwcnil : wc = []
        · rw [if_pos hwcnil] at hc; exact hchunks c hc
        · rw [if_neg hwcnil] at hc
          rcases List.mem_append.mp hc with hmem | hmem
          · exact hchunks c hmem
          · rw [List.mem_singleton.mp hmem]
            rcases hwc with h1 | h1
            · exact absurd h1 hwcnil
            · exact h1
      · exact Or.inr (Or.inr hwword)
    · rw [chunkWords_cons_fit tc maxTokens w ws chunks wc hbig]
      apply ih _ _ hwsrest hchunks
      refine Or.inr (Or.inl ?_)
      omega

theorem chunkSentences_nil (tc : List Char → Nat) (maxTokens : Nat)
    (chunks : List (List Char)) (currentChunk : List Char) :
    chunkSentences tc maxTokens [] chunks currentChunk =
      if currentChunk = [] then chunks else chunks ++ [currentChunk] := rfl

theorem chunkSentences_cons_over (tc : List Char → Nat) (maxTokens : Nat)
    (s : List Char) (ss chunks : List (List Char)) (currentChunk : List Char)
    (hbig : tc (trimChars s ++ ['.']) > maxTokens) :
    chunkSentences tc maxTokens (s :: ss) chunks currentChunk =
      chunkSentences tc maxTokens ss
        (if (chunkWords tc maxTokens (splitWhitespaceChars (trimChars s ++ ['.'])) chunks []).2 = []
          then (chunkWords tc maxTokens (splitWhitespaceChars (trimChars s ++ ['.'])) chunks []).1
          else (chunkWords tc maxTokens (splitWhitespaceChars (trimChars s ++ ['.'])) chunks []).1 ++
            [(chunkWords tc maxTokens (splitWhitespaceChars (trimChars s ++ ['.'])) chunks []).2])
        currentChunk := by
  simp only [chunkSentences]
  rw [if_pos hbig]

theorem chunkSentences_cons_flush (tc : List Char → Nat) (maxTokens : Nat)
    (s : List Char) (ss chunks : List (List Char)) (currentChunk : List Char)
    (hsmall : ¬ tc (trimChars s ++ ['.']) > maxTokens)
    (hcur : currentChunk ≠ [])
    (hover : tc (currentChunk ++ ' ' :: (trimChars s ++ ['.'])) > maxTokens) :
    chunkSentences tc maxTokens (s :: ss) chunks currentChunk =
      chunkSentences tc maxTokens ss (chunks ++ [currentChunk])
        (trimChars s ++ ['.']) := by
  simp only [chunkSentences]
  rw [if_neg hsmall, if_pos hcur, if_pos hover]

theorem chunkSentences_cons_append (tc : List Char → Nat) (maxTokens : Nat)
    (s : List Char) (ss chunks : List (List Char)) (currentChunk : List Char)
    (hsmall : ¬ tc (trimChars s ++ ['.']) > maxTokens)
    (hcur : currentChunk ≠ [])
    (hfit : ¬ tc (currentChunk ++ ' ' :: (trimChars s ++ ['.'])) > maxTokens) :
    chunkSentences tc maxTokens (s :: ss) chunks currentChunk =
      chunkSentences tc maxTokens ss chunks
        (currentChunk ++ ' ' :: (trimChars s ++ ['.'])) := by
  simp only [chunkSentences]
  rw [if_neg hsmall, if_pos hcur, if_neg hfit]

theorem chunkSentences_cons_new (tc : List Char → Nat) (maxTokens : Nat)
    (s : List Char) (ss chunks : List (List Char)) (currentChunk : List Char)
    (hsmall : ¬ tc (trimChars s ++ ['.']) > maxTokens)
    (hcur : ¬ currentChunk ≠ []) :
    chunkSentences tc maxTokens (s :: ss) chunks currentChunk =
      chunkSentences tc maxTokens ss chunks (trimChars s ++ ['.']) := by
  simp only [chunkSentences]
  rw [if_neg hsmall, if_neg hcur]

theorem chunkSentences_inv (tc : List Char → Nat) (maxTokens : Nat)
    (ss : List (List Char)) :
    ∀ (chunks : List (List Char)) (cur : List Char),
    (∀ c ∈ chunks, BudgetOk tc maxTokens c) →
    (cur = [] ∨ tc cur ≤ maxTokens) →
    ∀ c ∈ chunkSentences tc maxTokens ss chunks cur, BudgetOk tc maxTokens c := by
  induction ss with
  | nil =>
    intro chunks cur hchunks hcur c hc
    rw [chunkSentences_nil] at hc
    by_cases hcnil : cur = []
    · rw [if_pos hcnil] at hc; exact hchunks c hc
    · rw [if_neg hcnil] at hc
      rcases List.mem_append.mp hc with h | h
      · exact hchunks c h
      · rw [List.mem_singleton.mp h]
        rcases hcur with h1 | h1
        · exact absurd h1 hcnil
        · exact Or.inl h1
  | cons s ss ih =>
    intro chunks cur hchunks hcur
    by_cases hbig : tc (trimChars s ++ ['.']) > maxTokens
    · rw [chunkSentences_cons_over tc maxTokens s ss chunks cur hbig]
      have hinv := chunkWords_inv tc maxTokens
        (splitWhitespaceChars (trimChars s ++ ['.'])) chunks []
        (splitWhitespaceChars_noWs (trimChars s ++ ['.'])) hchunks (Or.inl rfl)
      apply ih _ _ _ hcur
      intro c hc
      by_cases hres :
        (chunkWords tc maxTokens (splitWhitespaceChars (trimChars s ++ ['.'])) chunks []).2 = []
      · rw [if_pos hres] at hc; exact hinv.1 c hc
      · rw [if_neg hres] at hc
        rcases List.mem_append.mp hc with h | h
        · exact hinv.1 c h
        · rw [List.mem_singleton.mp h]
          rcases hinv.2 with h1 | h1
          · exact absurd h1 hres
          · exact h1
    · by_cases hcnil : cur ≠ []
      · by_cases hover : tc (cur ++ ' ' :: (trimChars s ++ ['.'])) > maxTokens
        · rw [chunkSentences_cons_flush tc maxTokens s ss chunks cur hbig hcnil hover]
          apply ih
          · intro c hc
            rcases List.mem_append.mp hc with h | h
            · exact hchunks c h
            · rw [List.mem_singleton.mp h]
              rcases hcur with h1 | h1
              · exact absurd h1 hcnil
              · exact Or.inl h1
          · refine Or.inr ?_; omega
        · rw [chunkSentences_cons_append tc maxTokens s ss chunks cur hbig hcnil hover]
          apply ih _ _ hchunks
          refine Or.inr ?_; omega
      · rw [chunkSentences_cons_new tc maxTokens s ss chunks cur hbig hcnil]
        apply ih _ _ hchunks
        refine Or.inr ?_; omega

/-- C1 (amended): every chunk returned by `split_text_into_chunks`
phonemizes-and-tokenizes (via the abstract `tc` collaborator) to at most
`maxTokens` tokens, except an oversized single word, which contains no
whitespace (no internal split point) and is passed through unchanged.  No
distinct flag accompanies such a chunk — the return value is a plain list
of strings. -/
theorem split_text_into_chunks_budget (tc : List Char → Nat) (text : List Char)
    (maxTokens : Nat) (c : List Char)
    (hc : c ∈ splitTextIntoChunks tc text maxTokens) :
    tc c ≤ maxTokens ∨ ∀ ch ∈ c, ch.isWhitespace = false := by
  have h := chunkSentences_inv tc maxTokens
    ((splitOnPred isSentenceSep text).filter (fun s => !(trimChars s).isEmpty))
    [] [] (by intro c hc1; cases hc1) (Or.inl rfl) c hc
  exact h

/-- C1 witness: a concrete run of the amended theorem, with the
token-count collaborator instantiated to character count. -/
theorem split_text_into_chunks_budget_witness :
    List.length ['h', 'i', '.'] ≤ 10 ∨
      ∀ ch ∈ (['h', 'i', '.'] : List Char), ch.isWhitespace = false :=
  split_text_into_chunks_budget List.length ['h', 'i'] 10 ['h', 'i', '.']
    (by decide)

/-- C1 counterexample: for `tc` = character count, text `"ab"` and
`max_tokens = 1`, the single returned chunk `"ab."` tokenizes to 3 > 1
tokens and is returned as a plain string in the same shape as any ordinary
chunk — no distinct flagging exists, so the claim as stated fails. -/
theorem split_text_into_chunks_no_flag_cex :
    splitTextIntoChunks List.length ['a', 'b'] 1 = [['a', 'b', '.']] ∧
      ¬ List.length ['a', 'b', '.'] ≤ 1 := by
  decide

/-- C9: `WavHeader::write_header` emits exactly the 44-byte header — RIFF
tag, chunk size `4+8+16+8+data_size`, WAVE and fmt tags, fmt-chunk size 16,
format code 3 (IEEE float), channel count, sample rate, byte rate
`sample_rate*channels*bits_per_sample/8`, block align
`channels*bits_per_sample/8`, bits-per-sample, data tag, data size — all
multi-byte fields little-endian; and `write_audio_chunk` appends each
sample's little-endian bytes in order.  The side conditions state that the
`u32`/`u16` products do not overflow (they are wrapped in the definition,
as in release-mode Rust). -/
theorem wav_header_and_chunk_format {α : Type} (h : WavHeader) (dataSize : Nat)
    (enc : α → List Nat) (samples : List α)
    (hsrch : h.sampleRate * h.channels < 2 ^ 32)
    (hbr : h.sampleRate * h.channels * h.bitsPerSample < 2 ^ 32)
    (hba : h.channels * h.bitsPerSample < 2 ^ 16) :
    writeHeader h dataSize =
      asciiBytes "RIFF" ++ u32le (4 + 8 + 16 + 8 + dataSize) ++
      asciiBytes "WAVE" ++ asciiBytes "fmt " ++ u32le 16 ++ u16le 3 ++
      u16le h.channels ++ u32le h.sampleRate ++
      u32le (h.sampleRate * h.channels * h.bitsPerSample / 8) ++
      u16le (h.channels * h.bitsPerSample / 8) ++ u16le h.bitsPerSample ++
      asciiBytes "data" ++ u32le dataSize ∧
    (writeHeader h dataSize).length = 44 ∧
    writeAudioChunk enc (writeHeader h dataSize) samples =
      writeHeader h dataSize ++ (samples.map enc).flatten := by
  have hdr : writeHeader h dataSize =
      asciiBytes "RIFF" ++ u32le (4 + 8 + 16 + 8 + dataSize) ++
      asciiBytes "WAVE" ++ asciiBytes "fmt " ++ u32le 16 ++ u16le 3 ++
      u16le h.channels ++ u32le h.sampleRate ++
      u32le (h.sampleRate * h.channels * h.bitsPerSample / 8) ++
      u16le (h.channels * h.bitsPerSample / 8) ++ u16le h.bitsPerSample ++
      asciiBytes "data" ++ u32le dataSize := by
    simp only [writeHeader, writeAll, u32le_mod, Nat.mod_eq_of_lt hsrch,
      Nat.mod_eq_of_lt hbr, Nat.mod_eq_of_lt hba, List.append_assoc,
      List.nil_append]
  refine ⟨hdr, ?_, writeAudioChunk_eq enc (writeHeader h dataSize) samples⟩
  rw [hdr]
  simp [asciiBytes, u32le, u16le]

/-- C9 witness: mono float WAV at 24 kHz, 32 bits per sample, 1000 data
bytes, one sample. -/
theorem wav_header_and_chunk_format_witness :
    writeHeader ⟨1, 24000, 32⟩ 1000 =
      asciiBytes "RIFF" ++ u32le (4 + 8 + 16 + 8 + 1000) ++
      asciiBytes "WAVE" ++ asciiBytes "fmt " ++ u32le 16 ++ u16le 3 ++
      u16le 1 ++ u32le 24000 ++ u32le (24000 * 1 * 32 / 8) ++
      u16le (1 * 32 / 8) ++ u16le 32 ++ asciiBytes "data" ++ u32le 1000 ∧
    (writeHeader ⟨1, 24000, 32⟩ 1000).length = 44 ∧
    writeAudioChunk (fun _ : Unit => [0, 0, 0, 0])
        (writeHeader ⟨1, 24000, 32⟩ 1000) [()] =
      writeHeader ⟨1, 24000, 32⟩ 1000 ++ (([()].map fun _ => [0, 0, 0, 0])).flatten :=
  wav_header_and_chunk_format ⟨1, 24000, 32⟩ 1000 (fun _ => [0, 0, 0, 0]) [()]
    (by norm_num) (by norm_num) (by norm_num)

/-- C10: `detect_language` never returns `None` — every branch, including
short inputs, low-alphabetic inputs, classifier failure, low confidence and
unsupported languages, yields `Some`; consequently, with auto-detection on,
the language selection in `tts_raw_audio` always adopts the detected value
and its `None` fallback branch is unreachable. -/
theorem detect_language_never_none (oracle : List Char → Option (String × ℚ))
    (text : List Char) (lan : String) :
    (detectLanguage oracle text).isSome = true ∧
    (∃ d, detectLanguage oracle text = some d ∧
      selectLanguage oracle true text lan = d) := by
  have hsome : (detectLanguage oracle text).isSome = true := by
    simp only [detectLanguage]
    split
    · rfl
    · split
      · rfl
      · match oracle (trimChars text) with
        | none => rfl
        | some (code, confidence) =>
          simp only
          split
          · rfl
          · match languageMap.lookup code with
            | some espeakCode => rfl
            | none => rfl
  refine ⟨hsome, ?_⟩
  obtain ⟨d, hd⟩ := Option.isSome_iff_exists.mp hsome
  exact ⟨d, hd, by simp [selectLanguage, hd]⟩

theorem bankLookup_mem (bank : VoiceBank) (nm : List Char) (t : StyleTable)
    (h : bankLookup bank nm = some t) : (nm, t) ∈ bank := by
  induction bank with
  | nil => cases h
  | cons kv rest ih =>
    simp only [bankLookup] at h
    by_cases hk : kv.1 = nm
    · rw [if_pos hk] at h
      have hkv : kv = (nm, t) := Prod.ext hk (Option.some_inj.mp h)
      rw [← hkv]
      exact List.mem_cons_self kv rest
    · rw [if_neg hk] at h
      exact List.mem_cons_of_mem kv (ih h)

theorem blendFold_isSome (bank : VoiceBank) (L : Nat) (hWF : bankWF bank L)
    (comps : List (List Char × ℚ)) :
    ∀ (acc : Option StyleRow), acc.isSome = true →
      (comps.foldl (blendStep bank L) acc).isSome = true := by
  induction comps with
  | nil => intro acc h; simpa using h
  | cons p ps ih =>
    intro acc hacc
    rw [List.foldl_cons]
    apply ih
    obtain ⟨row, hrow⟩ := Option.isSome_iff_exists.mp hacc
    cases hlk : bankLookup bank p.1 with
    | none => simp [blendStep, hrow, hlk]
    | some table =>
      have hlen := hWF p.1 table (bankLookup_mem bank p.1 table hlk)
      cases hget : table.get? L with
      | none =>
        rw [List.get?_eq_none] at hget
        omega
      | some srow =>
        simp only [blendStep, hrow, hlk, Option.some_bind]
        rw [hget]
        rfl

theorem blendFold_absent (bank : VoiceBank) (L : Nat)
    (comps : List (List Char × ℚ))
    (habs : ∀ p ∈ comps, bankLookup bank p.1 = none) :
    ∀ (acc : Option StyleRow), comps.foldl (blendStep bank L) acc = acc := by
  induction comps with
  | nil => intro acc; rfl
  | cons p ps ih =>
    intro acc
    rw [List.foldl_cons]
    have hp := habs p (List.mem_cons_self p ps)
    have hstep : blendStep bank L acc p = acc := by
      simp [blendStep, hp]
    rw [hstep]
    exact ih (fun q hq => habs q (List.mem_cons_of_mem p hq)) acc

theorem mixStyles_composite (bank : VoiceBank) (spec : List Char) (L : Nat)
    (hplus : spec.contains '+' = true) :
    mixStyles bank spec L =
      ((parseComponents spec).foldl (blendStep bank L) (some zeroRow)).map
        (fun row => Except.ok [row]) := by
  simp only [mixStyles, hplus, Bool.not_true]
  rw [if_neg Bool.false_ne_true]

theorem mixStyles_single (bank : VoiceBank) (spec : List Char) (L : Nat)
    (hplus : spec.contains '+' = false) :
    mixStyles bank spec L =
      match bankLookup bank spec with
      | some table =>
        match table.get? L with
        | some row => some (Except.ok [row])
        | none => none
      | none =>
        some (Except.error ("can not found from styles_map: " ++ String.mk spec)) := by
  simp only [mixStyles, hplus, Bool.not_false]
  exact if_pos trivial

theorem mixStyles_single_absent (bank : VoiceBank) (spec : List Char) (L : Nat)
    (hplus : spec.contains '+' = false) (hlk : bankLookup bank spec = none) :
    mixStyles bank spec L =
      some (Except.error ("can not found from styles_map: " ++ String.mk spec)) := by
  rw [mixStyles_single bank spec L hplus, hlk]

theorem mixStyles_single_present (bank : VoiceBank) (spec : List Char) (L : Nat)
    (table : StyleTable) (row : StyleRow)
    (hplus : spec.contains '+' = false) (hlk : bankLookup bank spec = some table)
    (hget : table.get? L = some row) :
    mixStyles bank spec L = some (Except.ok [row]) := by
  rw [mixStyles_single bank spec L hplus, hlk]
  show (match table.get? L with
    | some row => some (Except.ok [row])
    | none => none) = some (Except.ok [row])
  rw [hget]

/-- C8: `mix_styles(spec, seq_len)` returns an `Err` exactly when the spec
is a single name (no `'+'`) absent from the Voice Bank; every composite
spec succeeds (absent components are silently skipped), and when no parsed
component is present in the bank the result is the all-zero 256-vector.
The hypothesis `bankWF` states the sequence length is within every table's
range (511 for a loaded bank), ruling out the index panic. -/
theorem mix_styles_error_policy (bank : VoiceBank) (spec : List Char) (L : Nat)
    (hWF : bankWF bank L) :
    ((∃ e, mixStyles bank spec L = some (Except.error e)) ↔
      (spec.contains '+' = false ∧ bankLookup bank spec = none)) ∧
    (spec.contains '+' = true →
      ∃ rows, mixStyles bank spec L = some (Except.ok rows)) ∧
    (spec.contains '+' = true →
      (∀ p ∈ parseComponents spec, bankLookup bank p.1 = none) →
      mixStyles bank spec L = some (Except.ok [zeroRow])) := by
  cases hplus : spec.contains '+' with
  | true =>
    rw [mixStyles_composite bank spec L hplus]
    refine ⟨?_, ?_, ?_⟩
    · constructor
      · rintro ⟨e, he⟩
        exfalso
        cases hfold : (parseComponents spec).foldl (blendStep bank L) (some zeroRow) with
        | none => rw [hfold] at he; cases he
        | some row => rw [hfold] at he; cases he
      · rintro ⟨hf, -⟩
        cases hf
    · intro _
      have hs := blendFold_isSome bank L hWF (parseComponents spec) (some zeroRow) rfl
      obtain ⟨row, hrow⟩ := Option.isSome_iff_exists.mp hs
      exact ⟨[row], by rw [hrow]; rfl⟩
    · intro _ habs
      rw [blendFold_absent bank L (parseComponents spec) habs (some zeroRow)]
      rfl
  | false =>
    cases hlk : bankLookup bank spec with
    | none =>
      rw [mixStyles_single_absent bank spec L hplus hlk]
      refine ⟨?_, ?_, ?_⟩
      · exact ⟨fun _ => ⟨rfl, rfl⟩, fun _ => ⟨_, rfl⟩⟩
      · intro hf; cases hf
      · intro hf; cases hf
    | some table =>
      have hlen := hWF spec table (bankLookup_mem bank spec table hlk)
      cases hget : table.get? L with
      | none =>
        rw [List.get?_eq_none] at hget
        omega
      | some row =>
        rw [mixStyles_single_present bank spec L table row hplus hlk hget]
        refine ⟨?_, ?_, ?_⟩
        · constructor
          · rintro ⟨e, he⟩; cases he
          · rintro ⟨-, hnone⟩; cases hnone
        · intro hf; cases hf
        · intro hf; cases hf

/-- C8 witness: a single-name spec absent from a one-voice bank errors. -/
theorem mix_styles_error_policy_witness :
    ∃ e, mixStyles [("af_sky".toList, [zeroRow])] ("missing".toList) 0 =
      some (Except.error e) :=
  (mix_styles_error_policy [("af_sky".toList, [zeroRow])] ("missing".toList) 0
    (by
      intro nm t h
      rw [List.mem_singleton] at h
      rw [show t = [zeroRow] from congrArg Prod.snd h]
      simp)).1.mpr ⟨by decide, by decide⟩

/-- C3 (amended): for the spec `"voice_a.5+voice_b.5"` with both names in
the bank, `mix_styles` returns `(5*0.1)·bank[voice_a][L] +
(5*0.1)·bank[voice_b][L] = 0.5·a + 0.5·b` element-wise: `split_once('.')`
strips the dot, so the parsed decimal weight of the component `".5"` is the
integer 5, and the fixed 0.1 scale then yields 0.5 — not the 0.05 the
claim's reading `0.5*0.1` would give. -/
theorem blendStep_present (bank : VoiceBank) (L : Nat) (row : StyleRow)
    (nm : List Char) (w : ℚ) (table : StyleTable) (srow : StyleRow)
    (hlk : bankLookup bank nm = some table) (hget : table.get? L = some srow) :
    blendStep bank L (some row) (nm, w) = some (fun j => row j + srow j * w) := by
  simp only [blendStep, Option.some_bind, hlk, hget]

theorem mix_styles_tenths_scaling (bank : VoiceBank) (L : Nat)
    (ta tb : StyleTable) (ra rb : StyleRow)
    (ha : bankLookup bank ("voice_a".toList) = some ta)
    (hb : bankLookup bank ("voice_b".toList) = some tb)
    (hra : ta.get? L = some ra) (hrb : tb.get? L = some rb) :
    mixStyles bank (("voice_a.5+voice_b.5").toList) L =
      some (Except.ok [fun j => 5 * (1 / 10) * ra j + 5 * (1 / 10) * rb j]) := by
  have hcomps : parseComponents (("voice_a.5+voice_b.5").toList) =
      [("voice_a".toList, 5 * (1 / 10 : ℚ)), ("voice_b".toList, 5 * (1 / 10 : ℚ))] := by
    rfl
  have h1 : blendStep bank L (some zeroRow) ("voice_a".toList, 5 * (1 / 10 : ℚ)) =
      some (fun j => zeroRow j + ra j * (5 * (1 / 10))) :=
    blendStep_present bank L zeroRow _ _ ta ra ha hra
  have h2 : blendStep bank L (some (fun j => zeroRow j + ra j * (5 * (1 / 10 : ℚ))))
      ("voice_b".toList, 5 * (1 / 10 : ℚ)) =
      some (fun j => zeroRow j + ra j * (5 * (1 / 10)) + rb j * (5 * (1 / 10))) :=
    blendStep_present bank L _ _ _ tb rb hb hrb
  rw [mixStyles_composite bank _ L (by decide), hcomps, List.foldl_cons, h1,
    List.foldl_cons, h2, List.foldl_nil]
  simp only [Option.map_some']
  refine congrArg some (congrArg Except.ok (congrArg (fun r => [r]) ?_))
  funext j
  simp only [zeroRow]
  ring

/-- C3 witness: a concrete run of the amended theorem on the two-voice
evaluation bank. -/
theorem mix_styles_tenths_scaling_witness :
    mixStyles cexBankAB (("voice_a.5+voice_b.5").toList) 0 =
      some (Except.ok
        [fun j => 5 * (1 / 10) * (fun _ : Fin 256 => (1 : ℚ)) j +
          5 * (1 / 10) * (fun _ : Fin 256 => (0 : ℚ)) j]) :=
  mix_styles_tenths_scaling cexBankAB 0 [fun _ => 1] [fun _ => 0]
    (fun _ => 1) (fun _ => 0) rfl rfl rfl rfl

/-- C3 counterexample: on the two-voice bank (voice_a all ones, voice_b all
zeros) the blend `"voice_a.5+voice_b.5"` produces the component value 1/2,
whereas the claimed `0.5*0.1*a + 0.5*0.1*b` would be 1/20: the claim as
stated is false. -/
theorem mix_styles_tenths_cex :
    mixStyles cexBankAB (("voice_a.5+voice_b.5").toList) 0 =
      some (Except.ok [fun _ => (1 : ℚ) / 2]) ∧
    ((1 : ℚ) / 2) ≠ (1 / 2) * (1 / 10) * 1 + (1 / 2) * (1 / 10) * 0 := by
  constructor
  · have h1 : blendStep cexBankAB 0 (some zeroRow) ("voice_a".toList, 5 * (1 / 10 : ℚ)) =
        some (fun j => zeroRow j + (fun _ : Fin 256 => (1 : ℚ)) j * (5 * (1 / 10))) :=
      blendStep_present cexBankAB 0 zeroRow _ _ [fun _ => 1] (fun _ => 1) rfl rfl
    have h2 : blendStep cexBankAB 0
        (some (fun j => zeroRow j + (fun _ : Fin 256 => (1 : ℚ)) j * (5 * (1 / 10))))
        ("voice_b".toList, 5 * (1 / 10 : ℚ)) =
        some (fun j => zeroRow j + (fun _ : Fin 256 => (1 : ℚ)) j * (5 * (1 / 10)) +
          (fun _ : Fin 256 => (0 : ℚ)) j * (5 * (1 / 10))) :=
      blendStep_present cexBankAB 0 _ _ _ [fun _ => 0] (fun _ => 0) rfl rfl
    rw [mixStyles_composite cexBankAB _ 0 (by decide),
      show parseComponents (("voice_a.5+voice_b.5").toList) =
        [("voice_a".toList, 5 * (1 / 10 : ℚ)), ("voice_b".toList, 5 * (1 / 10 : ℚ))] from rfl,
      List.foldl_cons, h1, List.foldl_cons, h2, List.foldl_nil]
    simp only [Option.map_some']
    refine congrArg some (congrArg Except.ok (congrArg (fun r => [r]) ?_))
    funext j
    simp only [zeroRow]
    norm_num
  · norm_num

theorem bankFirstKey_contains (bank : VoiceBank) (hne : bank ≠ []) :
    ∃ k, bankFirstKey bank = some k ∧ bankContains bank k = true := by
  cases bank with
  | nil => exact absurd rfl hne
  | cons kv rest =>
    refine ⟨kv.1, rfl, ?_⟩
    simp [bankContains, bankLookup]

/-- C4 (amended): for every NON-EMPTY Voice Bank, every language code,
every user style and both values of `force`, the `effective_style`
computation returns a style name present in the bank; on the empty bank the
fallback `styles.keys().next().unwrap()` panics (modelled `none`), so the
claim's "including the empty one" fails. -/
theorem effective_style_present (bank : VoiceBank)
    (getDefault : List Char → Bool → List Char) (isCustom : Bool)
    (language styleName : List Char) (forceStyle : Bool) (hne : bank ≠ []) :
    ∃ s, effectiveStyle bank getDefault isCustom language styleName forceStyle =
      some s ∧ bankContains bank s = true := by
  obtain ⟨k, hk, hkc⟩ := bankFirstKey_contains bank hne
  simp only [effectiveStyle]
  cases hf : forceStyle with
  | true =>
    simp only [Bool.not_true]
    rw [if_neg Bool.false_ne_true]
    cases hsn : bankContains bank styleName with
    | true =>
      simp only [Bool.not_true]
      rw [if_neg Bool.false_ne_true]
      exact ⟨styleName, rfl, hsn⟩
    | false =>
      simp only [Bool.not_false]
      rw [if_pos trivial]
      exact ⟨k, hk, hkc⟩
  | false =>
    simp only [Bool.not_false]
    rw [if_pos trivial]
    cases hd : bankContains bank (getDefault language isCustom) with
    | true =>
      rw [if_pos rfl]
      exact ⟨getDefault language isCustom, rfl, hd⟩
    | false =>
      rw [if_neg Bool.false_ne_true]
      cases hsn : bankContains bank styleName with
      | true =>
        simp only [Bool.not_true]
        rw [if_neg Bool.false_ne_true]
        exact ⟨styleName, rfl, hsn⟩
      | false =>
        simp only [Bool.not_false]
        rw [if_pos trivial]
        exact ⟨k, hk, hkc⟩

/-- C4 witness: a one-voice bank, default voice absent, user style absent:
resolution falls back to the first available voice, which is present. -/
theorem effective_style_present_witness :
    ∃ s, effectiveStyle [("af_sky".toList, [])] (fun _ _ => "es_faz".toList)
      false ("es".toList) ("missing".toList) false = some s ∧
      bankContains [("af_sky".toList, [])] s = true :=
  effective_style_present [("af_sky".toList, [])] (fun _ _ => "es_faz".toList)
    false ("es".toList) ("missing".toList) false (by decide)

/-- C4 counterexample: on the EMPTY Voice Bank the style resolution panics
(`unwrap()` on `keys().next()`, modelled `none`) instead of returning a
usable style, for both values of `force`. -/
theorem effective_style_empty_bank_cex :
    effectiveStyle [] (fun _ _ => "af_sky".toList) false ("en-us".toList)
      ("af_sky".toList) false = none ∧
    effectiveStyle [] (fun _ _ => "af_sky".toList) false ("en-us".toList)
      ("af_sky".toList) true = none := by
  decide

/-- C2 (amended): in the per-chunk loop of `tts_raw_audio`, a chunk failure
is NOT isolated: a phonemize `Err` on any chunk makes the whole call return
that `Err` immediately (first conjunct), and an infer `Err` makes it return
the wrapped error (second conjunct) — in both cases the remaining chunks
are not processed and already-synthesized audio (`acc`) is discarded.  The
log-and-skip failure policy lives one level up, in the per-sentence loop of
the Pipe front end, not in `tts_raw_audio`. -/
theorem tts_raw_audio_error_propagation
    (phonemize : List Char → Except String (List (List Char)))
    (post : List Char → List Char) (tokenize : List Char → List Nat)
    (infer : List (List Nat) → List StyleRow → Except String (List ℚ))
    (bank : VoiceBank) (effStyle : List Char) (initialSilence : Nat)
    (chunk : List Char) (rest : List (List Char)) (acc : List ℚ) (e : String) :
    (phonemize chunk = Except.error e →
      ttsChunkLoop phonemize post tokenize infer bank effStyle initialSilence
        (chunk :: rest) acc = some (Except.error e)) ∧
    (∀ ps styles,
      phonemize chunk = Except.ok ps →
      mixStyles bank effStyle
        (List.replicate initialSilence 30 ++ tokenize (post ps.flatten)).length =
        some (Except.ok styles) →
      infer [0 :: ((List.replicate initialSilence 30 ++ tokenize (post ps.flatten)) ++ [0])]
        styles = Except.error e →
      ttsChunkLoop phonemize post tokenize infer bank effStyle initialSilence
        (chunk :: rest) acc =
        some (Except.error ("Chunk processing failed: " ++ e))) := by
  constructor
  · intro h
    simp only [ttsChunkLoop, h]
  · intro ps styles h1 h2 h3
    simp only [ttsChunkLoop, h1, h2, h3]

/-- C2 witness: with a phonemizer that fails on the single chunk `"bad."`,
the loop returns that error. -/
theorem tts_raw_audio_error_propagation_witness :
    ttsChunkLoop cexPhonemize id (fun s => s.map Char.toNat)
      (fun _ _ => Except.ok [1]) [("a".toList, [zeroRow])] ("a".toList) 0
      ["bad.".toList] [] = some (Except.error "phonemize failed") :=
  (tts_raw_audio_error_propagation cexPhonemize id (fun s => s.map Char.toNat)
    (fun _ _ => Except.ok [1]) [("a".toList, [zeroRow])] ("a".toList) 0
    ("bad.".toList) [] [] "phonemize failed").1 (by rfl)

/-- C2 counterexample: a two-chunk utterance where the first chunk
synthesizes successfully (producing audio `[1]`) and the second chunk's
phonemization fails.  The claim says the audio of unaffected chunks is
still produced and returned; in fact `tts_raw_audio` returns `Err` and the
first chunk's audio is discarded. -/
theorem tts_raw_audio_abort_cex :
    ttsChunkLoop cexPhonemize id (fun s => s.map Char.toNat)
      (fun _ _ => Except.ok [1]) [("a".toList, List.replicate 20 zeroRow)]
      ("a".toList) 0 ["good.".toList, "bad.".toList] [] =
      some (Except.error "phonemize failed") := by
  rfl

/-- Exact partition of the CJK scan: the emitted units concatenated with
the trailing run reconstruct the scanned text after the already-collected
state. -/
theorem cjkScan_partition (s : List Char) :
    ∀ (acc : List (List Char)) (cur : List Char),
    (cjkScan s acc cur).1.flatten ++ (cjkScan s acc cur).2 =
      acc.flatten ++ cur ++ s := by
  induction s with
  | nil => intro acc cur; simp [cjkScan]
  | cons c rest ih =>
    intro acc cur
    simp only [cjkScan]
    split
    · rw [ih]
      simp
    · rw [ih]
      simp

/-- C5 (amended): on the CJK path of the Pipe-mode segmentation buffer,
each increment's extraction partitions the buffer exactly — the
concatenation of the emitted units followed by the scan remainder equals
the buffer, with units in input order — and the retained buffer is that
remainder, except that a whitespace-only remainder is discarded (its bytes
are dropped, which is what falsifies the claim's "no byte discarded"). -/
theorem cjk_buffer_accounting (buffer : List Char) :
    ((cjkStep buffer).1.flatten ++ (cjkScan buffer [] []).2 = buffer) ∧
    ((cjkStep buffer).2 = (cjkScan buffer [] []).2 ∨
      ((cjkStep buffer).2 = [] ∧ trimChars (cjkScan buffer [] []).2 = [])) := by
  constructor
  · have h := cjkScan_partition buffer [] []
    simpa [cjkStep] using h
  · by_cases hw : (trimChars (cjkScan buffer [] []).2).isEmpty = true
    · right
      refine ⟨?_, List.isEmpty_iff.mp hw⟩
      simp [cjkStep, hw]
    · left
      simp [cjkStep, hw]

/-- C5 counterexample: in a CJK session, feeding the single increment
`"Hi. "` emits the unit `"Hi."` and clears the buffer: the trailing space
is discarded, so the concatenation of emitted units plus the retained
buffer does not equal the input fed — a byte is lost without any synthetic
punctuation being involved. -/
theorem segmentation_buffer_discard_cex :
    cjkStep ("Hi. ".toList) = (["Hi.".toList], []) ∧
    (cjkStep ("Hi. ".toList)).1.flatten ++ (cjkStep ("Hi. ".toList)).2 ≠
      "Hi. ".toList := by
  decide

/-- C6 (amended): in a Pipe-mode session the language lock happens on the
FIRST increment unconditionally — after one step `language_detected` is
true — and language detection runs during that step only when auto-detect
is on AND the buffer already exceeds 60 bytes; otherwise the configured
fallback language is frozen without any detection. -/
theorem pipe_lang_lock_step (detect : List Char → Option (List Char))
    (getDefault : List Char → Bool → List Char) (isCustom : Bool)
    (autoDetect forceStyle : Bool) (style : List Char) (st : PipeState)
    (line : List Char) (h : st.languageDetected = false) :
    (pipeLangLockStep detect getDefault isCustom autoDetect forceStyle style
      st line).languageDetected = true ∧
    ((autoDetect = true ∧ 60 < byteLen (st.buffer ++ line)) →
      (pipeLangLockStep detect getDefault isCustom autoDetect forceStyle style
        st line).sessionLanguage =
        (match detect (st.buffer ++ line) with
         | some d => d
         | none => st.sessionLanguage)) ∧
    (¬ (autoDetect = true ∧ 60 < byteLen (st.buffer ++ line)) →
      (pipeLangLockStep detect getDefault isCustom autoDetect forceStyle style
        st line).sessionLanguage = st.sessionLanguage) := by
  simp only [pipeLangLockStep, h, Bool.not_false]
  rw [if_pos trivial]
  refine ⟨rfl, ?_, ?_⟩
  · intro hcond
    simp only [if_pos hcond]
  · intro hcond
    simp only [if_neg hcond]

/-- C6 witness: a first increment of 2 bytes with auto-detect on locks the
session. -/
theorem pipe_lang_lock_step_witness :
    (pipeLangLockStep (fun _ => some ("fr-fr".toList)) (fun _ _ => "af_sky".toList)
      false true false ("af_sky".toList)
      (pipeInit ("en-us".toList) ("af_sky".toList) true)
      ("Hi".toList)).languageDetected = true :=
  (pipe_lang_lock_step (fun _ => some ("fr-fr".toList)) (fun _ _ => "af_sky".toList)
    false true false ("af_sky".toList)
    (pipeInit ("en-us".toList) ("af_sky".toList) true) ("Hi".toList) rfl).1

/-- C6 counterexample: with auto-detection enabled and a 2-byte first
increment (far below the 60-byte threshold), the session does NOT remain
awaiting language: it locks immediately with the fallback language
`"en-us"`, even though the detector would have said `"fr-fr"`. -/
theorem language_lock_threshold_cex :
    pipeLangLockStep (fun _ => some ("fr-fr".toList)) (fun _ _ => "af_sky".toList)
      false true false ("af_sky".toList)
      (pipeInit ("en-us".toList) ("af_sky".toList) true) ("Hi".toList) =
    { buffer := "Hi".toList, languageDetected := true,
      sessionLanguage := "en-us".toList, sessionStyle := "af_sky".toList } := by
  decide

set_option maxRecDepth 8000 in
/-- C7: evaluating the starvation guard at a buffer of 199 ASCII bytes
followed by the two-byte character `é` (201 bytes, no extracted sentence):
the slice `&buffer[..200]` falls inside `é`, which panics in Rust
(modelled `none`) — the guard is not total.  At a boundary-aligned buffer
of 201 ASCII bytes it does emit exactly the first 200 bytes and retains
the remainder, as the claim describes. -/
theorem starvation_guard_panic :
    starvationGuard [] (List.replicate 199 'a' ++ ['é']) = none ∧
    starvationGuard [] (List.replicate 201 'a') =
      some ([List.replicate 200 'a'], ['a']) := by
  decide

end Kokorox
